import Mathlib

/-!
Verification of the AssetTracker core logic: service-status date derivation
(`parseServiceFrequency`, `calculateNextServiceDue`, `calculateDaysUntilService`,
`getServiceStatus`), asset creation and queries (`createAsset`, `getAssets`,
`getAssetsDueSoon`), and the offline mutation queue of the `useAssets` hook
(`addToOfflineQueue`, `saveOfflineQueue`, `loadOfflineQueue`, `loadCachedAssets`,
`processOfflineQueue`).

Modelling conventions:
- JavaScript strings are Lean `String`s; the string operations the source uses
  (`trim`, `toLowerCase`, `includes`, `parseInt`) are modelled on `List Char`
  for ASCII input, which is the only input the application produces.
- JavaScript `Date` values (always used by the source at calendar-day
  granularity through date-fns `parseISO` / `addDays` / `differenceInDays`)
  are modelled as proleptic-Gregorian calendar dates `CalDate`, with ISO
  `YYYY-MM-DD` rendering; years are restricted to 1..9999 (the 4-digit ISO
  forms the application produces and consumes).
- date-fns, an external library, is modelled by its documented contract:
  `addDays` advances the calendar day, `differenceInDays` is the whole-day
  difference, `parseISO` yields an invalid date on unparseable input.
  A JavaScript number that may be `NaN` is modelled as `Option Int` with
  `none` for `NaN`; every `NaN` comparison in the source is false, which the
  model reflects at each use site.
- `JSON.stringify` / `JSON.parse` (external) are modelled by their contract
  via `Blob`: a stored string either is the serialization of a value (which
  `JSON.parse` recovers) or is corrupt (on which `JSON.parse` throws).
-/

set_option maxRecDepth 100000

namespace AssetTracker

/-! ### JavaScript string primitives (ASCII model) -/

/-- Whitespace characters trimmed/skipped by JS `trim` and `parseInt`
(ASCII subset). -/
def isWsChar (c : Char) : Bool :=
  c = ' ' || c = '\t' || c = '\n' || c = '\r'

/-- JS `String.prototype.trim` on ASCII text. -/
def jsTrim (l : List Char) : List Char :=
  ((l.dropWhile isWsChar).reverse.dropWhile isWsChar).reverse

/-- JS `String.prototype.toLowerCase` on one ASCII character. -/
def lowerChar (c : Char) : Char :=
  if 65 ≤ c.toNat ∧ c.toNat ≤ 90 then Char.ofNat (c.toNat + 32) else c

/-- JS `String.prototype.toLowerCase` on ASCII text. -/
def jsToLower (l : List Char) : List Char :=
  l.map lowerChar

/-- Test `startsWith s sub`: `sub` is a leading segment of `s`. -/
def startsWith : List Char → List Char → Bool
  | _, [] => true
  | [], _ :: _ => false
  | c :: s, d :: sub => c = d && startsWith s sub

/-- JS `String.prototype.includes`: `strContains s sub` is `s.includes(sub)`. -/
def strContains : List Char → List Char → Bool
  | [], sub => sub.isEmpty
  | c :: t, sub => startsWith (c :: t) sub || strContains t sub

/-- Digit value of a character in a given radix, as JS `parseInt` reads it. -/
def charDigitVal (radix : Nat) (c : Char) : Option Nat :=
  let v : Option Nat :=
    if 48 ≤ c.toNat ∧ c.toNat ≤ 57 then some (c.toNat - 48)
    else if 97 ≤ c.toNat ∧ c.toNat ≤ 122 then some (c.toNat - 97 + 10)
    else if 65 ≤ c.toNat ∧ c.toNat ≤ 90 then some (c.toNat - 65 + 10)
    else none
  match v with
  | some d => if d < radix then some d else none
  | none => none

/-- Longest digit prefix in the given radix, `none` when empty (JS `NaN`). -/
def parseDigitsRadix (radix : Nat) (l : List Char) : Option Nat :=
  let ds := l.takeWhile fun c => (charDigitVal radix c).isSome
  if ds.isEmpty then none
  else some (ds.foldl (fun a c => a * radix + (charDigitVal radix c).getD 0) 0)

/-- JS `parseInt` magnitude part: an optional `0x`/`0X` prefix switches to
hexadecimal, otherwise decimal. -/
def jsParseIntAbs (l : List Char) : Option Nat :=
  if l.take 2 = ['0', 'x'] || l.take 2 = ['0', 'X'] then
    parseDigitsRadix 16 (l.drop 2)
  else
    parseDigitsRadix 10 l

/-- JS `parseInt` after whitespace skipping: optional sign, then magnitude. -/
def jsParseIntCore (l : List Char) : Option Int :=
  match l with
  | [] => none
  | c :: rest =>
    if c = '-' then (jsParseIntAbs rest).map fun v => -(v : Int)
    else if c = '+' then (jsParseIntAbs rest).map fun v => (v : Int)
    else (jsParseIntAbs (c :: rest)).map fun v => (v : Int)

/-- JS `parseInt(s)` (radix unspecified): `none` models `NaN`. -/
def jsParseInt (s : String) : Option Int :=
  jsParseIntCore (s.data.dropWhile isWsChar)

/-! ### Source: `parseServiceFrequency` (src/unnamed/part_000, lines 54-80) -/

/-- Embeds `parseServiceFrequency`.  `none` input models a missing
(`undefined`) argument; the empty string is rejected by the JS falsy guard
`if (!frequency) return undefined`.  The `monthly` branch returns only when
`parseInt` succeeded (`if (!isNaN(months))`), otherwise control falls
through exactly as in the source; `parseInt(trimmed) || 1` in the yearly
branch maps both `NaN` and `0` to `1`. -/
def parseServiceFrequency (frequency : Option String) : Option Int :=
  match frequency with
  | none => none
  | some f =>
    if f.data.isEmpty then none
    else
      let trimmed := jsToLower (jsTrim f.data)
      if strContains trimmed "monthly".data && (jsParseInt (String.mk trimmed)).isSome then
        (jsParseInt (String.mk trimmed)).map (· * 30)
      else if strContains trimmed "yearly".data || strContains trimmed "annual".data then
        let years : Int :=
          match jsParseInt (String.mk trimmed) with
          | some y => if y = 0 then 1 else y
          | none => 1
        some (years * 365)
      else
        jsParseInt (String.mk trimmed)

end AssetTracker

namespace AssetTracker

/-- Decimal digit list of a natural number, most significant first
(fuel-based so that it reduces in the kernel). -/
def natDigitsAux : Nat → Nat → List Nat
  | 0, _ => []
  | fuel + 1, n => if n < 10 then [n] else natDigitsAux fuel (n / 10) ++ [n % 10]

/-- Decimal digit list of a natural number, most significant first. -/
def natDigits (n : Nat) : List Nat :=
  natDigitsAux (n + 1) n

/-- Canonical decimal rendering of a natural number. -/
def decimalString (n : Nat) : String :=
  String.mk ((natDigits n).map Nat.digitChar)

/-! ### Calendar model (JS `Date` at day granularity, date-fns contract) -/

/-- A proleptic-Gregorian calendar date, the day-granularity content of the
JS `Date` values the source manipulates through date-fns. -/
structure CalDate where
  year : Nat
  month : Nat
  day : Nat
deriving DecidableEq, Repr

/-- Gregorian leap-year rule. -/
def isLeapYear (y : Nat) : Bool :=
  (y % 4 = 0 && y % 100 ≠ 0) || y % 400 = 0

/-- Number of days in month `m` (1..12) of a (non-)leap year. -/
def monthLength (leap : Bool) (m : Nat) : Nat :=
  match m with
  | 1 => 31
  | 2 => if leap then 29 else 28
  | 3 => 31
  | 4 => 30
  | 5 => 31
  | 6 => 30
  | 7 => 31
  | 8 => 31
  | 9 => 30
  | 10 => 31
  | 11 => 30
  | 12 => 31
  | _ => 0

/-- Days in the year strictly before month `m` (1..12). -/
def monthDaysBefore (leap : Bool) (m : Nat) : Nat :=
  match m with
  | 1 => 0
  | 2 => 31
  | 3 => if leap then 60 else 59
  | 4 => if leap then 91 else 90
  | 5 => if leap then 121 else 120
  | 6 => if leap then 152 else 151
  | 7 => if leap then 182 else 181
  | 8 => if leap then 213 else 212
  | 9 => if leap then 244 else 243
  | 10 => if leap then 274 else 273
  | 11 => if leap then 305 else 304
  | 12 => if leap then 335 else 334
  | _ => 0

/-- A well-formed calendar date with a positive year. -/
def validDate (d : CalDate) : Bool :=
  1 ≤ d.year && 1 ≤ d.month && d.month ≤ 12 &&
  1 ≤ d.day && d.day ≤ monthLength (isLeapYear d.year) d.month

/-- Leap years among `1, ..., y - 1`. -/
def leapsBefore (y : Nat) : Nat :=
  (y - 1) / 4 - (y - 1) / 100 + (y - 1) / 400

/-- Linear day number of a date (day 0 is 0001-01-01). -/
def toDayNumber (d : CalDate) : Nat :=
  365 * (d.year - 1) + leapsBefore d.year +
    monthDaysBefore (isLeapYear d.year) d.month + (d.day - 1)

/-- The next calendar day. -/
def succDay (d : CalDate) : CalDate :=
  if d.day < monthLength (isLeapYear d.year) d.month then ⟨d.year, d.month, d.day + 1⟩
  else if d.month < 12 then ⟨d.year, d.month + 1, 1⟩
  else ⟨d.year + 1, 1, 1⟩

/-- The previous calendar day. -/
def predDay (d : CalDate) : CalDate :=
  if 1 < d.day then ⟨d.year, d.month, d.day - 1⟩
  else if 1 < d.month then ⟨d.year, d.month - 1, monthLength (isLeapYear d.year) (d.month - 1)⟩
  else ⟨d.year - 1, 12, 31⟩

/-- Advance a date by `n` calendar days. -/
def addDaysN : CalDate → Nat → CalDate
  | d, 0 => d
  | d, n + 1 => addDaysN (succDay d) n

/-- Rewind a date by `n` calendar days. -/
def subDaysN : CalDate → Nat → CalDate
  | d, 0 => d
  | d, n + 1 => subDaysN (predDay d) n

/-- date-fns `addDays` (contract: advance/rewind the calendar day). -/
def addDays (d : CalDate) (i : Int) : CalDate :=
  if 0 ≤ i then addDaysN d i.toNat else subDaysN d (-i).toNat

/-- Digit value of an ASCII digit character. -/
def digitVal (c : Char) : Nat := c.toNat - 48

/-- ASCII decimal digit test. -/
def isDigitChar (c : Char) : Bool := 48 ≤ c.toNat && c.toNat ≤ 57

/-- date-fns `parseISO` restricted to the `YYYY-MM-DD` day form (the form the
application stores): `none` models an invalid date.  Month, day-of-month and
a positive 4-digit year are validated, as `parseISO` does. -/
def parseISODayChars : List Char → Option CalDate
  | [y1, y2, y3, y4, h1, m1, m2, h2, d1, d2] =>
    if h1 = '-' && h2 = '-' && isDigitChar y1 && isDigitChar y2 && isDigitChar y3 &&
        isDigitChar y4 && isDigitChar m1 && isDigitChar m2 && isDigitChar d1 &&
        isDigitChar d2 then
      let dt : CalDate :=
        ⟨1000 * digitVal y1 + 100 * digitVal y2 + 10 * digitVal y3 + digitVal y4,
         10 * digitVal m1 + digitVal m2,
         10 * digitVal d1 + digitVal d2⟩
      if validDate dt then some dt else none
    else none
  | _ => none

/-- Run `parseISO` on a string. -/
def parseISODay (s : String) : Option CalDate :=
  parseISODayChars s.data

/-- Two-digit zero-padded decimal rendering. -/
def pad2 (n : Nat) : List Char :=
  [Nat.digitChar (n / 10 % 10), Nat.digitChar (n % 10)]

/-- Four-digit zero-padded decimal rendering. -/
def pad4 (n : Nat) : List Char :=
  [Nat.digitChar (n / 1000 % 10), Nat.digitChar (n / 100 % 10),
   Nat.digitChar (n / 10 % 10), Nat.digitChar (n % 10)]

/-- JS `Date.prototype.toISOString` restricted to its `YYYY-MM-DD` day part
(the granularity at which the application consumes it). -/
def printISODay (d : CalDate) : String :=
  String.mk (pad4 d.year ++ '-' :: pad2 d.month ++ '-' :: pad2 d.day)

/-! ### Source: date derivation (src/unnamed/part_000, lines 85-131) -/

/-- The `ServiceStatus` union type of the source. -/
inductive ServiceStatus where
  | current
  | dueSoon
  | overdue
deriving DecidableEq, Repr

/-- Embeds `calculateNextServiceDue`.  The JS falsy guard
`if (!lastServiceDate || !serviceFrequencyDays)` rejects `undefined`, the
empty string and frequency `0`; an unparseable date makes `toISOString`
throw, which the source catches, returning `undefined`. -/
def calculateNextServiceDue (lastServiceDate : Option String)
    (serviceFrequencyDays : Option Int) : Option String :=
  match lastServiceDate, serviceFrequencyDays with
  | some s, some f =>
    if s.data.isEmpty || f == 0 then none
    else
      match parseISODay s with
      | none => none
      | some dt => some (printISODay (addDays dt f))
  | _, _ => none

/-- Embeds `calculateDaysUntilService`.  `none` models both the explicit
`null` of the absent case and the `NaN` produced by `differenceInDays` on an
invalid date; the caller treats the two identically. -/
def calculateDaysUntilService (nextServiceDue : Option String) (today : CalDate) :
    Option Int :=
  match nextServiceDue with
  | none => none
  | some s =>
    if s.data.isEmpty then none
    else
      match parseISODay s with
      | none => none
      | some due => some ((toDayNumber due : Int) - (toDayNumber today : Int))

/-- Embeds `getServiceStatus`.  In the source the `NaN` day count produced by
an unparseable date falls through both comparisons (`NaN < 0` and
`NaN <= 30` are false), yielding `current` exactly as the `null` guard does;
the model merges the two through the `none` branch. -/
def getServiceStatus (nextServiceDue : Option String) (today : CalDate) :
    ServiceStatus :=
  match nextServiceDue with
  | none => .current
  | some s =>
    if s.data.isEmpty then .current
    else
      match calculateDaysUntilService (some s) today with
      | none => .current
      | some daysUntil =>
        if daysUntil < 0 then .overdue
        else if daysUntil ≤ 30 then .dueSoon
        else .current

/-! ### Source: asset model and CRUD (src/unnamed/part_000, lines 884-1160)

The `Asset` document carries many presentation-only attributes (manufacturer,
model, images, location, ...); the model keeps the fields the service-status
logic and the cited queries read or write.  `serviceStatus` is optional in
the source interface (`serviceStatus?: ServiceStatus`). -/

structure Asset where
  id : String
  lastServiceDate : Option String
  serviceFrequency : Option String
  nextServiceDue : Option String
  serviceStatus : Option ServiceStatus
deriving DecidableEq, Repr

/-- The form fields of `AssetFormValues` that feed the service derivation;
`none` models `undefined`/empty optional form input. -/
structure AssetFormValues where
  lastServiceDate : Option String
  serviceFrequency : Option String
deriving DecidableEq, Repr

/-- Embeds the service-derivation part of `createAsset`: the new document
stores `nextServiceDue` computed from the form fields and `serviceStatus`
computed by `getServiceStatus(nextServiceDue)` at the creation date
(`today` stands for the ambient `new Date()` clock; `assetId` for
`generateUniqueId()`). -/
def createAsset (formValues : AssetFormValues) (today : CalDate) (assetId : String) :
    Asset :=
  let nextServiceDue :=
    calculateNextServiceDue formValues.lastServiceDate
      (parseServiceFrequency formValues.serviceFrequency)
  { id := assetId
    lastServiceDate := formValues.lastServiceDate
    serviceFrequency := formValues.serviceFrequency
    nextServiceDue := nextServiceDue
    serviceStatus := some (getServiceStatus nextServiceDue today) }

/-- Embeds the `serviceStatus` filter of `getAssets`: the Firestore query
`where('serviceStatus', '==', f)` selects on the stored document field. -/
def getAssets (all : List Asset) (serviceStatusFilter : Option ServiceStatus) :
    List Asset :=
  match serviceStatusFilter with
  | none => all
  | some f => all.filter fun a => a.serviceStatus == some f

/-- Embeds `getAssetsDueSoon`: fetch all assets, then filter on the stored
`serviceStatus` field. -/
def getAssetsDueSoon (all : List Asset) : List Asset :=
  (getAssets all none).filter fun a =>
    a.serviceStatus == some .dueSoon || a.serviceStatus == some .overdue

/-! ### Source: offline queue of the `useAssets` hook (src/App.tsx part 2,
lines 240-345) -/

/-- The `'create' | 'update' | 'delete'` union of `OfflineQueueItem.type`. -/
inductive MutationKind where
  | create
  | update
  | delete
deriving DecidableEq, Repr

/-- Embeds the `OfflineQueueItem` interface; the `any`-typed payload `data`
is kept as its serialized form. -/
structure OfflineQueueItem where
  id : String
  type : MutationKind
  collection : String
  documentId : String
  data : String
  timestamp : String
  retryCount : Nat
deriving DecidableEq, Repr

/-- A value stored in AsyncStorage under one key, modelling the external
`JSON.stringify` / `JSON.parse` pair by contract: `good v` is the
serialization of `v`, which `JSON.parse` recovers; `corrupt` is a string on
which `JSON.parse` throws. -/
inductive Blob (α : Type) where
  | good : α → Blob α
  | corrupt : String → Blob α
deriving DecidableEq, Repr

/-- Run `JSON.parse` on a stored value; `none` models the parse throwing. -/
def jsonParse {α : Type} (b : Blob α) : Option α :=
  match b with
  | .good v => some v
  | .corrupt _ => none

/-- The Local Persistent Store (AsyncStorage) at its two keys
`@assettracker_offline_queue` and `@assettracker_cached_assets`;
`none` models an absent key. -/
structure LocalStore where
  offline_queue : Option (Blob (List OfflineQueueItem))
  cached_assets : Option (Blob (List Asset))
deriving DecidableEq, Repr

/-- The `useAssets` hook state touched by the queue/cache functions. -/
structure AssetsHookState where
  assets : List Asset
  loading : Bool
  syncing : Bool
  offlineQueue : List OfflineQueueItem
deriving DecidableEq, Repr

/-- The hook's initial state. -/
def initialAssetsState : AssetsHookState :=
  { assets := [], loading := true, syncing := false, offlineQueue := [] }

/-- The ambient JS environment of one call: `Date.now()` and the
`Math.random().toString(36).substr(2, 9)` suffix that `generateUniqueId`
combines, and the `new Date().toISOString()` timestamp. -/
structure JsEnv where
  nowMs : Nat
  randSuffix : String
  nowIso : String
deriving DecidableEq, Repr

/-- Embeds `generateUniqueId` (src/unnamed/part_000, lines 317-318). -/
def generateUniqueId (env : JsEnv) : String :=
  decimalString env.nowMs ++ "-" ++ env.randSuffix

/-- Embeds `saveOfflineQueue`: persist the serialized queue to AsyncStorage
(assumed to succeed), then update the in-memory `offlineQueue` state. -/
def saveOfflineQueue (queue : List OfflineQueueItem) (st : AssetsHookState)
    (store : LocalStore) : AssetsHookState × LocalStore :=
  ({ st with offlineQueue := queue },
   { store with offline_queue := some (.good queue) })

/-- Embeds `addToOfflineQueue`: build the item with a generated id, the
current timestamp and `retryCount: 0`, append it, and persist via
`saveOfflineQueue` before returning. -/
def addToOfflineQueue (ty : MutationKind) (collection documentId payload : String)
    (env : JsEnv) (st : AssetsHookState) (store : LocalStore) :
    AssetsHookState × LocalStore :=
  let item : OfflineQueueItem :=
    { id := generateUniqueId env
      type := ty
      collection := collection
      documentId := documentId
      data := payload
      timestamp := env.nowIso
      retryCount := 0 }
  saveOfflineQueue (st.offlineQueue ++ [item]) st store

/-- Embeds `loadOfflineQueue`: read the key; an absent key leaves the state
unchanged, a corrupt value makes `JSON.parse` throw into the catch block,
which only logs. -/
def loadOfflineQueue (st : AssetsHookState) (store : LocalStore) : AssetsHookState :=
  match store.offline_queue with
  | none => st
  | some b =>
    match jsonParse b with
    | some q => { st with offlineQueue := q }
    | none => st

/-- Embeds `loadCachedAssets`: read `@assettracker_cached_assets`; on a
present, parseable value set `assets` and clear `loading`; an absent key or
a corrupt value (caught `JSON.parse` throw) leaves the state unchanged. -/
def loadCachedAssets (st : AssetsHookState) (store : LocalStore) : AssetsHookState :=
  match store.cached_assets with
  | none => st
  | some b =>
    match jsonParse b with
    | some assets => { st with assets := assets, loading := false }
    | none => st

/-- An operation issued against the Remote Store (Firestore), as the replay
engine would issue it. -/
inductive RemoteOp where
  | putDoc : String → String → String → RemoteOp
  | updateDoc : String → String → String → RemoteOp
  | deleteDoc : String → String → RemoteOp
deriving DecidableEq, Repr

/-- Everything observable about one `processOfflineQueue` run. -/
structure FlushResult where
  state : AssetsHookState
  store : LocalStore
  logged : List OfflineQueueItem
  remoteOps : List RemoteOp
deriving DecidableEq, Repr

/-- Embeds `processOfflineQueue`.  The loop body is
`console.log('Processing offline item:', item)`, which cannot throw, so
every item takes the success path: the catch branch that would re-push the
item with `retryCount + 1` is unreachable, `remainingQueue` stays empty, no
Remote Store call is ever issued, and the emptied queue is persisted.
`logged` records the items the loop visited; `remoteOps` the (absent)
remote traffic. -/
def processOfflineQueue (st : AssetsHookState) (store : LocalStore) : FlushResult :=
  if st.offlineQueue.isEmpty then
    { state := st, store := store, logged := [], remoteOps := [] }
  else
    let remainingQueue : List OfflineQueueItem := []
    let saved := saveOfflineQueue remainingQueue { st with syncing := true } store
    { state := { saved.1 with syncing := false }
      store := saved.2
      logged := st.offlineQueue
      remoteOps := [] }

/-! ### Lemmas: decimal digits and `parseInt` -/

theorem digitChar_facts (k : Nat) (h : k < 10) :
    (Nat.digitChar k).toNat = 48 + k ∧
    isDigitChar (Nat.digitChar k) = true ∧
    digitVal (Nat.digitChar k) = k ∧
    charDigitVal 10 (Nat.digitChar k) = some k ∧
    Nat.digitChar k ≠ '-' ∧ Nat.digitChar k ≠ '+' ∧
    Nat.digitChar k ≠ 'x' ∧ Nat.digitChar k ≠ 'X' ∧
    isWsChar (Nat.digitChar k) = false ∧
    lowerChar (Nat.digitChar k) = Nat.digitChar k := by
  interval_cases k <;> exact ⟨rfl, rfl, rfl, rfl, by decide, by decide, by decide,
    by decide, rfl, rfl⟩

theorem natDigitsAux_spec : ∀ (fuel : Nat), ∀ n, 1 ≤ fuel → n < 10 ^ fuel →
    natDigitsAux fuel n ≠ [] ∧ (∀ k ∈ natDigitsAux fuel n, k < 10) ∧
    (natDigitsAux fuel n).foldl (fun acc k => acc * 10 + k) 0 = n := by
  intro fuel
  induction fuel with
  | zero => omega
  | succ fuel ih =>
    intro n _ hn
    by_cases h : n < 10
    · refine ⟨by simp [natDigitsAux, h], ?_, by simp [natDigitsAux, h]⟩
      intro k hk
      simp [natDigitsAux, h] at hk
      omega
    · have hf : 1 ≤ fuel := by
        by_contra hf0
        have : fuel = 0 := by omega
        subst this
        simp at hn
        omega
      have hdiv : n / 10 < 10 ^ fuel := by
        rw [pow_succ, Nat.mul_comm] at hn
        exact Nat.div_lt_of_lt_mul hn
      obtain ⟨h1, h2, h3⟩ := ih (n / 10) hf hdiv
      have heq : natDigitsAux (fuel + 1) n = natDigitsAux fuel (n / 10) ++ [n % 10] := by
        simp [natDigitsAux, h]
      refine ⟨by simp [heq], ?_, ?_⟩
      · intro k hk
        rw [heq] at hk
        rcases List.mem_append.mp hk with hk | hk
        · exact h2 k hk
        · simp at hk
          omega
      · rw [heq, List.foldl_append, h3]
        simp
        omega

theorem natDigits_spec (n : Nat) :
    natDigits n ≠ [] ∧ (∀ k ∈ natDigits n, k < 10) ∧
    (natDigits n).foldl (fun acc k => acc * 10 + k) 0 = n := by
  have hlt : n < 10 ^ (n + 1) := by
    calc n < 10 ^ n := Nat.lt_pow_self (by norm_num) n
    _ ≤ 10 ^ (n + 1) := Nat.pow_le_pow_right (by norm_num) (Nat.le_succ n)
  exact natDigitsAux_spec (n + 1) n (by omega) hlt

theorem dropWhile_cons_false {p : Char → Bool} {c : Char} {l : List Char}
    (h : p c = false) : (c :: l).dropWhile p = c :: l := by
  simp [List.dropWhile, h]

theorem takeWhile_append_front {p : Char → Bool} :
    ∀ (l₁ l₂ : List Char), (∀ c ∈ l₁, p c = true) →
    (l₁ ++ l₂).takeWhile p = l₁ ++ l₂.takeWhile p := by
  intro l₁
  induction l₁ with
  | nil => intro l₂ _; simp
  | cons c t ih =>
    intro l₂ hall
    have hc : p c = true := hall c (by simp)
    simp [List.takeWhile, hc]
    exact ih l₂ fun d hd => hall d (by simp [hd])

theorem foldl_map_digitChar :
    ∀ (l : List Nat), (∀ k ∈ l, k < 10) → ∀ (a : Nat),
    (l.map Nat.digitChar).foldl (fun acc c => acc * 10 + (charDigitVal 10 c).getD 0) a
      = l.foldl (fun acc k => acc * 10 + k) a := by
  intro l
  induction l with
  | nil => intro _ a; rfl
  | cons k t ih =>
    intro hall a
    have hk : k < 10 := hall k (by simp)
    have := (digitChar_facts k hk).2.2.2.1
    simp only [List.map_cons, List.foldl_cons, this, Option.getD_some]
    exact ih (fun d hd => hall d (by simp [hd])) _

/-- JS `parseInt` reads a decimal numeral followed by a non-digit remainder
(that does not re-trigger the hex prefix) as that numeral. -/
theorem jsParseInt_digits_append (n : Nat) (rest : List Char)
    (hrest : rest = [] ∨
      ∃ c t, rest = c :: t ∧ charDigitVal 10 c = none ∧ c ≠ 'x' ∧ c ≠ 'X') :
    jsParseInt (String.mk ((natDigits n).map Nat.digitChar ++ rest)) = some (n : Int) := by
  obtain ⟨hne, hlt, hfold⟩ := natDigits_spec n
  obtain ⟨k, ks, hk⟩ : ∃ k ks, natDigits n = k :: ks := by
    cases h : natDigits n with
    | nil => exact absurd h hne
    | cons k ks => exact ⟨k, ks, rfl⟩
  have hk10 : k < 10 := hlt k (by simp [hk])
  have hfk := digitChar_facts k hk10
  have hL : (natDigits n).map Nat.digitChar ++ rest
      = Nat.digitChar k :: (ks.map Nat.digitChar ++ rest) := by simp [hk]
  have habs : jsParseIntAbs (Nat.digitChar k :: (ks.map Nat.digitChar ++ rest)) = some n := by
    unfold jsParseIntAbs
    rw [if_neg ?hex]
    case hex =>
      -- the second character is never `x`/`X`: it is a digit char or the
      -- non-digit head of `rest`
      simp only [Bool.or_eq_true, decide_eq_true_eq, not_or]
      constructor
      · intro hcontra
        cases ks with
        | nil =>
          rcases hrest with h0 | ⟨c, t, hct, _, hx, _⟩
          · subst h0; simp at hcontra
          · subst hct
            simp [List.take] at hcontra
            exact hx hcontra.2
        | cons k2 ks2 =>
          have hk2 : k2 < 10 := hlt k2 (by simp [hk])
          simp [List.take] at hcontra
          exact (digitChar_facts k2 hk2).2.2.2.2.2.2.1 hcontra.2
      · intro hcontra
        cases ks with
        | nil =>
          rcases hrest with h0 | ⟨c, t, hct, _, _, hx⟩
          · subst h0; simp at hcontra
          · subst hct
            simp [List.take] at hcontra
            exact hx hcontra.2
        | cons k2 ks2 =>
          have hk2 : k2 < 10 := hlt k2 (by simp [hk])
          simp [List.take] at hcontra
          exact (digitChar_facts k2 hk2).2.2.2.2.2.2.2.1 hcontra.2
    · have hall : ∀ c ∈ (natDigits n).map Nat.digitChar,
          (charDigitVal 10 c).isSome = true := by
        intro c hc
        obtain ⟨d, hd, rfl⟩ := List.mem_map.mp hc
        rw [(digitChar_facts d (hlt d hd)).2.2.2.1]
        rfl
      have htail : rest.takeWhile (fun c => (charDigitVal 10 c).isSome) = [] := by
        rcases hrest with h0 | ⟨c, t, hct, hnone, _, _⟩
        · simp [h0]
        · subst hct
          simp [List.takeWhile, hnone]
      have hds : (Nat.digitChar k :: (ks.map Nat.digitChar ++ rest)).takeWhile
          (fun c => (charDigitVal 10 c).isSome)
          = (natDigits n).map Nat.digitChar := by
        have := takeWhile_append_front (p := fun c => (charDigitVal 10 c).isSome)
          ((natDigits n).map Nat.digitChar) rest hall
        rw [hL] at this
        rw [this, htail, List.append_nil]
      simp only [parseDigitsRadix, hds]
      rw [if_neg (by simp [hk])]
      rw [foldl_map_digitChar (natDigits n) hlt 0, hfold]
  have hcore : jsParseIntCore (Nat.digitChar k :: (ks.map Nat.digitChar ++ rest))
      = some (n : Int) := by
    simp [jsParseIntCore, hfk.2.2.2.2.1, hfk.2.2.2.2.2.1, habs]
  unfold jsParseInt
  show jsParseIntCore ((((natDigits n).map Nat.digitChar ++ rest)).dropWhile isWsChar)
      = some (n : Int)
  rw [hL, dropWhile_cons_false hfk.2.2.2.2.2.2.2.2.1, hcore]

/-! ### Lemmas: trim, lowercase, includes -/

theorem dropWhile_all_false {p : Char → Bool} {l : List Char}
    (h : ∀ c ∈ l, p c = false) : l.dropWhile p = l := by
  cases l with
  | nil => rfl
  | cons c t => exact dropWhile_cons_false (h c (by simp))

theorem jsTrim_eq_self {l : List Char} (h : ∀ c ∈ l, isWsChar c = false) :
    jsTrim l = l := by
  unfold jsTrim
  rw [dropWhile_all_false h,
    dropWhile_all_false fun c hc => h c (List.mem_reverse.mp hc),
    List.reverse_reverse]

theorem jsToLower_eq_self {l : List Char} (h : ∀ c ∈ l, lowerChar c = c) :
    jsToLower l = l := by
  unfold jsToLower
  induction l with
  | nil => rfl
  | cons c t ih =>
    simp only [List.map_cons, h c (by simp)]
    rw [ih fun d hd => h d (by simp [hd])]

theorem startsWith_prepend : ∀ (sub t : List Char), startsWith (sub ++ t) sub = true := by
  intro sub
  induction sub with
  | nil => intro t; cases t <;> rfl
  | cons c subt ih => intro t; simp [startsWith, ih t]

theorem strContains_append_self : ∀ (pre sub : List Char),
    strContains (pre ++ sub) sub = true := by
  intro pre
  induction pre with
  | nil =>
    intro sub
    cases sub with
    | nil => rfl
    | cons c t =>
      have := startsWith_prepend (c :: t) []
      simp at this
      simp [strContains, this]
  | cons a pret ih =>
    intro sub
    simp [strContains, ih sub]

theorem mem_of_startsWith : ∀ (sub s : List Char), startsWith s sub = true →
    ∀ x ∈ sub, x ∈ s := by
  intro sub
  induction sub with
  | nil => intro s _ x hx; simp at hx
  | cons d subt ih =>
    intro s hs x hx
    cases s with
    | nil => simp [startsWith] at hs
    | cons c st =>
      simp only [startsWith, Bool.and_eq_true, decide_eq_true_eq] at hs
      rcases List.mem_cons.mp hx with hx | hx
      · simp [hx, hs.1]
      · exact List.mem_cons_of_mem c (ih st hs.2 x hx)

theorem mem_of_strContains : ∀ (s sub : List Char), strContains s sub = true →
    ∀ x ∈ sub, x ∈ s := by
  intro s
  induction s with
  | nil =>
    intro sub hs x hx
    simp only [strContains, List.isEmpty_iff] at hs
    subst hs
    simp at hx
  | cons c t ih =>
    intro sub hs x hx
    simp only [strContains, Bool.or_eq_true] at hs
    rcases hs with hs | hs
    · exact mem_of_startsWith sub (c :: t) hs x hx
    · exact List.mem_cons_of_mem c (ih sub hs x hx)

theorem strContains_false_of_not_mem {s sub : List Char} {x : Char}
    (hx : x ∈ sub) (hs : x ∉ s) : strContains s sub = false := by
  cases h : strContains s sub with
  | false => rfl
  | true => exact absurd (mem_of_strContains s sub h x hx) hs

/-! ### Lemmas: `parseServiceFrequency` on the shapes the spec names -/

theorem decimalString_chars (n : Nat) :
    ∀ c ∈ (decimalString n).data, 48 ≤ c.toNat ∧ c.toNat ≤ 57 ∧
      isWsChar c = false ∧ lowerChar c = c := by
  intro c hc
  have hc' : c ∈ (natDigits n).map Nat.digitChar := hc
  obtain ⟨d, hd, rfl⟩ := List.mem_map.mp hc'
  have hd10 : d < 10 := (natDigits_spec n).2.1 d hd
  have hf := digitChar_facts d hd10
  exact ⟨by rw [hf.1]; omega, by rw [hf.1]; omega,
    hf.2.2.2.2.2.2.2.2.1, hf.2.2.2.2.2.2.2.2.2⟩

theorem decimalString_data (n : Nat) :
    (decimalString n).data = (natDigits n).map Nat.digitChar := rfl

theorem decimalString_data_ne_nil (n : Nat) : (decimalString n).data ≠ [] := by
  rw [decimalString_data]
  intro h
  exact (natDigits_spec n).1 (List.map_eq_nil_iff.mp h)

theorem mem_toNat_le_57 {n : Nat} {c : Char} (hc : c ∈ (decimalString n).data) :
    c.toNat ≤ 57 := ((decimalString_chars n) c hc).2.1

/-- Applying `parseServiceFrequency` to a bare decimal numeral yields that number of
days. -/
theorem parseServiceFrequency_decimal (n : Nat) :
    parseServiceFrequency (some (decimalString n)) = some (n : Int) := by
  have hchars := decimalString_chars n
  have hne := decimalString_data_ne_nil n
  have htrim : jsToLower (jsTrim (decimalString n).data) = (decimalString n).data := by
    rw [jsTrim_eq_self fun c hc => (hchars c hc).2.2.1]
    exact jsToLower_eq_self fun c hc => (hchars c hc).2.2.2
  have hm : strContains (decimalString n).data "monthly".data = false :=
    strContains_false_of_not_mem (x := 'm') (by decide)
      (fun hmem => by have h1 := mem_toNat_le_57 hmem; have h2 : ('m').toNat = 109 := rfl; omega)
  have hy : strContains (decimalString n).data "yearly".data = false :=
    strContains_false_of_not_mem (x := 'y') (by decide)
      (fun hmem => by have h1 := mem_toNat_le_57 hmem; have h2 : ('y').toNat = 121 := rfl; omega)
  have ha : strContains (decimalString n).data "annual".data = false :=
    strContains_false_of_not_mem (x := 'a') (by decide)
      (fun hmem => by have h1 := mem_toNat_le_57 hmem; have h2 : ('a').toNat = 97 := rfl; omega)
  have hp : jsParseInt (String.mk (decimalString n).data) = some (n : Int) := by
    have := jsParseInt_digits_append n [] (Or.inl rfl)
    rw [List.append_nil] at this
    exact this
  simp [parseServiceFrequency, htrim, hm, hy, ha, hp, hne]

/-- Applying `parseServiceFrequency` to `"<N>-monthly"` yields `N * 30` days. -/
theorem parseServiceFrequency_monthly (n : Nat) :
    parseServiceFrequency (some (decimalString n ++ "-monthly")) = some ((n : Int) * 30) := by
  have hchars := decimalString_chars n
  have hdata : (decimalString n ++ "-monthly").data
      = (decimalString n).data ++ "-monthly".data := rfl
  have hrest : ∀ c ∈ "-monthly".data, isWsChar c = false ∧ lowerChar c = c := by decide
  have hall : ∀ c ∈ (decimalString n).data ++ "-monthly".data,
      isWsChar c = false ∧ lowerChar c = c := by
    intro c hc
    rcases List.mem_append.mp hc with hc | hc
    · exact ⟨(hchars c hc).2.2.1, (hchars c hc).2.2.2⟩
    · exact hrest c hc
  have htrim : jsToLower (jsTrim ((decimalString n).data ++ "-monthly".data))
      = (decimalString n).data ++ "-monthly".data := by
    rw [jsTrim_eq_self fun c hc => (hall c hc).1]
    exact jsToLower_eq_self fun c hc => (hall c hc).2
  have hsplit : (decimalString n).data ++ "-monthly".data
      = ((decimalString n).data ++ ['-']) ++ "monthly".data := by
    have : "-monthly".data = '-' :: "monthly".data := rfl
    rw [this, List.append_cons]
  have hm : strContains ((decimalString n).data ++ "-monthly".data) "monthly".data
      = true := by
    rw [hsplit]
    exact strContains_append_self _ _
  have hp : jsParseInt (String.mk ((decimalString n).data ++ "-monthly".data))
      = some (n : Int) := by
    rw [decimalString_data]
    exact jsParseInt_digits_append n "-monthly".data
      (Or.inr ⟨'-', "monthly".data, rfl, by decide, by decide, by decide⟩)
  simp [parseServiceFrequency, hdata, htrim, hm, hp]

/-- Applying `parseServiceFrequency` to `"<N>-yearly"` with `N ≥ 1` yields `N * 365`
days. -/
theorem parseServiceFrequency_yearly (n : Nat) (hn : 0 < n) :
    parseServiceFrequency (some (decimalString n ++ "-yearly")) = some ((n : Int) * 365) := by
  have hchars := decimalString_chars n
  have hdata : (decimalString n ++ "-yearly").data
      = (decimalString n).data ++ "-yearly".data := rfl
  have hrest : ∀ c ∈ "-yearly".data, isWsChar c = false ∧ lowerChar c = c := by decide
  have hall : ∀ c ∈ (decimalString n).data ++ "-yearly".data,
      isWsChar c = false ∧ lowerChar c = c := by
    intro c hc
    rcases List.mem_append.mp hc with hc | hc
    · exact ⟨(hchars c hc).2.2.1, (hchars c hc).2.2.2⟩
    · exact hrest c hc
  have htrim : jsToLower (jsTrim ((decimalString n).data ++ "-yearly".data))
      = (decimalString n).data ++ "-yearly".data := by
    rw [jsTrim_eq_self fun c hc => (hall c hc).1]
    exact jsToLower_eq_self fun c hc => (hall c hc).2
  have hm : strContains ((decimalString n).data ++ "-yearly".data) "monthly".data
      = false := by
    refine strContains_false_of_not_mem (x := 'm') (by decide) ?_
    intro hmem
    rcases List.mem_append.mp hmem with hc | hc
    · have := mem_toNat_le_57 hc
      have h109 : ('m').toNat = 109 := by decide
      omega
    · have : ('m' ∈ "-yearly".data) = False := by decide
      rw [this] at hc
      exact hc
  have hsplit : (decimalString n).data ++ "-yearly".data
      = ((decimalString n).data ++ ['-']) ++ "yearly".data := by
    have : "-yearly".data = '-' :: "yearly".data := rfl
    rw [this, List.append_cons]
  have hy : strContains ((decimalString n).data ++ "-yearly".data) "yearly".data
      = true := by
    rw [hsplit]
    exact strContains_append_self _ _
  have hp : jsParseInt (String.mk ((decimalString n).data ++ "-yearly".data))
      = some (n : Int) := by
    rw [decimalString_data]
    exact jsParseInt_digits_append n "-yearly".data
      (Or.inr ⟨'-', "yearly".data, rfl, by decide, by decide, by decide⟩)
  have hnz : ((n : Int) = 0) = False := by
    simp only [Int.natCast_eq_zero, eq_iff_iff, iff_false]
    omega
  simp [parseServiceFrequency, hdata, htrim, hm, hy, hp, hnz]

/-! ### Lemmas: calendar arithmetic -/

theorem validDate_iff {d : CalDate} : validDate d = true ↔
    1 ≤ d.year ∧ 1 ≤ d.month ∧ d.month ≤ 12 ∧ 1 ≤ d.day ∧
    d.day ≤ monthLength (isLeapYear d.year) d.month := by
  simp [validDate, Bool.and_eq_true, decide_eq_true_eq]
  tauto

theorem validDate_mk {y m dd : Nat} : validDate ⟨y, m, dd⟩ = true ↔
    1 ≤ y ∧ 1 ≤ m ∧ m ≤ 12 ∧ 1 ≤ dd ∧ dd ≤ monthLength (isLeapYear y) m :=
  validDate_iff

theorem toDayNumber_mk {y m dd : Nat} : toDayNumber ⟨y, m, dd⟩
    = 365 * (y - 1) + leapsBefore y + monthDaysBefore (isLeapYear y) m + (dd - 1) := rfl

theorem monthLength_pos {leap : Bool} {m : Nat} (h1 : 1 ≤ m) (h2 : m ≤ 12) :
    1 ≤ monthLength leap m := by
  interval_cases m <;> cases leap <;> decide

theorem monthLength_le_31 : ∀ (leap : Bool) (m : Nat), monthLength leap m ≤ 31 := by
  intro leap m
  unfold monthLength
  split <;> cases leap <;> decide

theorem monthDaysBefore_succ {leap : Bool} {m : Nat} (h1 : 1 ≤ m) (h2 : m ≤ 11) :
    monthDaysBefore leap (m + 1) = monthDaysBefore leap m + monthLength leap m := by
  interval_cases m <;> cases leap <;> decide

theorem leapsBefore_succ {y : Nat} (hy : 1 ≤ y) :
    leapsBefore (y + 1) = leapsBefore y + (if isLeapYear y then 1 else 0) := by
  have hiff : (isLeapYear y = true) ↔ ((y % 4 = 0 ∧ ¬ (y % 100 = 0)) ∨ y % 400 = 0) := by
    simp [isLeapYear]
  unfold leapsBefore
  simp only [Nat.add_sub_cancel]
  by_cases hL : isLeapYear y = true
  · rw [if_pos hL]
    have := hiff.mp hL
    omega
  · rw [if_neg hL]
    have hnot : ¬ ((y % 4 = 0 ∧ ¬ (y % 100 = 0)) ∨ y % 400 = 0) :=
      fun hc => hL (hiff.mpr hc)
    push_neg at hnot
    clear hiff hL
    omega

theorem succDay_spec {d : CalDate} (h : validDate d = true) :
    validDate (succDay d) = true ∧ toDayNumber (succDay d) = toDayNumber d + 1 := by
  obtain ⟨y, m, dd⟩ := d
  obtain ⟨hy, hm1, hm2, hd1, hd2⟩ := validDate_mk.mp h
  unfold succDay
  simp only
  by_cases hlt : dd < monthLength (isLeapYear y) m
  · rw [if_pos hlt]
    refine ⟨validDate_mk.mpr ⟨hy, hm1, hm2, by omega, by omega⟩, ?_⟩
    rw [toDayNumber_mk, toDayNumber_mk]
    omega
  · rw [if_neg hlt]
    have hdd : dd = monthLength (isLeapYear y) m := by omega
    by_cases hm12 : m < 12
    · rw [if_pos hm12]
      have hpos : 1 ≤ monthLength (isLeapYear y) (m + 1) := monthLength_pos (by omega) (by omega)
      refine ⟨validDate_mk.mpr ⟨hy, by omega, by omega, by omega, hpos⟩, ?_⟩
      rw [toDayNumber_mk, toDayNumber_mk]
      have hmdb : monthDaysBefore (isLeapYear y) (m + 1)
          = monthDaysBefore (isLeapYear y) m + monthLength (isLeapYear y) m :=
        monthDaysBefore_succ hm1 (by omega)
      rw [hmdb]
      omega
    · rw [if_neg hm12]
      have hm' : m = 12 := by omega
      subst hm'
      have hml12 : monthLength (isLeapYear y) 12 = 31 := rfl
      rw [hml12] at hdd
      have hml1 : monthLength (isLeapYear (y + 1)) 1 = 31 := rfl
      refine ⟨validDate_mk.mpr ⟨by omega, by omega, by omega, by omega, by rw [hml1]; omega⟩, ?_⟩
      rw [toDayNumber_mk, toDayNumber_mk]
      have hls := leapsBefore_succ hy
      have hmdb12 : monthDaysBefore (isLeapYear y) 12 = if isLeapYear y then 335 else 334 := by
        cases hL : isLeapYear y <;> simp [monthDaysBefore, hL]
      have hmdb1 : monthDaysBefore (isLeapYear (y + 1)) 1 = 0 := rfl
      rw [hls, hmdb12, hmdb1]
      by_cases hL : isLeapYear y = true
      · rw [if_pos hL, if_pos hL]
        omega
      · rw [if_neg hL, if_neg hL]
        omega

theorem addDaysN_spec : ∀ (n : Nat) (d : CalDate), validDate d = true →
    validDate (addDaysN d n) = true ∧ toDayNumber (addDaysN d n) = toDayNumber d + n := by
  intro n
  induction n with
  | zero => intro d h; exact ⟨h, rfl⟩
  | succ n ih =>
    intro d h
    have hs := succDay_spec h
    have hrec := ih (succDay d) hs.1
    have hstep : addDaysN d (n + 1) = addDaysN (succDay d) n := rfl
    refine ⟨by rw [hstep]; exact hrec.1, ?_⟩
    rw [hstep, hrec.2, hs.2]
    omega

theorem year_le_9999_of_dayNumber {d : CalDate} (h : validDate d = true)
    (hn : toDayNumber d ≤ 3652058) : d.year ≤ 9999 := by
  by_contra hy
  obtain ⟨h1, _⟩ := validDate_iff.mp h
  unfold toDayNumber leapsBefore at hn
  omega

theorem parseISODay_inv {s : String} {d : CalDate} (h : parseISODay s = some d) :
    validDate d = true ∧ d.year ≤ 9999 ∧ s.data ≠ [] := by
  unfold parseISODay parseISODayChars at h
  split at h
  case _ y1 y2 y3 y4 h1 m1 m2 h2 d1 d2 heq =>
    dsimp only at h
    split at h
    case isTrue hcond =>
      split at h
      case isTrue hvalid =>
        injection h with h
        subst h
        simp only [Bool.and_eq_true] at hcond
        obtain ⟨⟨⟨⟨⟨⟨⟨⟨⟨_, _⟩, hy1⟩, hy2⟩, hy3⟩, hy4⟩, _⟩, _⟩, _⟩, _⟩ := hcond
        simp only [isDigitChar, Bool.and_eq_true, decide_eq_true_eq] at hy1 hy2 hy3 hy4
        refine ⟨hvalid, ?_, by rw [heq]; simp⟩
        show 1000 * digitVal y1 + 100 * digitVal y2 + 10 * digitVal y3 + digitVal y4 ≤ 9999
        unfold digitVal
        omega
      case isFalse => exact absurd h (by simp)
    case isFalse => exact absurd h (by simp)
  case _ => exact absurd h (by simp)

theorem parseISODay_printISODay {d : CalDate} (h : validDate d = true)
    (hy : d.year ≤ 9999) : parseISODay (printISODay d) = some d := by
  obtain ⟨y, m, dd⟩ := d
  obtain ⟨hy1, hm1, hm2, hd1, hd2⟩ := validDate_iff.mp h
  simp only at hy1 hm1 hm2 hd1 hd2 hy
  have hdle : dd ≤ 31 := le_trans hd2 (monthLength_le_31 _ _)
  have hD : ∀ k, k < 10 → isDigitChar (Nat.digitChar k) = true :=
    fun k hk => (digitChar_facts k hk).2.1
  have hV : ∀ k, k < 10 → digitVal (Nat.digitChar k) = k :=
    fun k hk => (digitChar_facts k hk).2.2.1
  have hlt : ∀ a : Nat, a % 10 < 10 := fun a => Nat.mod_lt _ (by norm_num)
  have e1 := hD _ (hlt (y / 1000))
  have e2 := hD _ (hlt (y / 100))
  have e3 := hD _ (hlt (y / 10))
  have e4 := hD _ (hlt y)
  have e5 := hD _ (hlt (m / 10))
  have e6 := hD _ (hlt m)
  have e7 := hD _ (hlt (dd / 10))
  have e8 := hD _ (hlt dd)
  have v1 := hV _ (hlt (y / 1000))
  have v2 := hV _ (hlt (y / 100))
  have v3 := hV _ (hlt (y / 10))
  have v4 := hV _ (hlt y)
  have v5 := hV _ (hlt (m / 10))
  have v6 := hV _ (hlt m)
  have v7 := hV _ (hlt (dd / 10))
  have v8 := hV _ (hlt dd)
  have hyr : 1000 * (y / 1000 % 10) + 100 * (y / 100 % 10) + 10 * (y / 10 % 10) + y % 10
      = y := by omega
  have hmr : 10 * (m / 10 % 10) + m % 10 = m := by omega
  have hdr : 10 * (dd / 10 % 10) + dd % 10 = dd := by omega
  simp only [printISODay, parseISODay, pad4, pad2, List.cons_append, List.nil_append]
  unfold parseISODayChars
  simp only [e1, e2, e3, e4, e5, e6, e7, e8, v1, v2, v3, v4, v5, v6, v7, v8,
    hyr, hmr, hdr]
  simp [h]

/-! ### Claim theorems -/

/-- C1: the claim says `processOfflineQueue` replays every queued mutation
against the Remote Store in FIFO order and removes a mutation only after the
store acknowledges it.  The code does neither: at the failing input — two
queued updates to document `A` with payloads `p1`, `p2` and an
always-succeeding Remote Store — the flush issues no Remote Store operation
at all, yet removes both mutations from the in-memory queue and from the
persisted queue. -/
theorem processOfflineQueue_discards_without_replay :
    (processOfflineQueue
      { initialAssetsState with offlineQueue :=
          [⟨"q1", .update, "assets", "A", "p1", "t1", 0⟩,
           ⟨"q2", .update, "assets", "A", "p2", "t2", 0⟩] }
      ⟨some (.good [⟨"q1", .update, "assets", "A", "p1", "t1", 0⟩,
                    ⟨"q2", .update, "assets", "A", "p2", "t2", 0⟩]), none⟩).remoteOps = [] ∧
    (processOfflineQueue
      { initialAssetsState with offlineQueue :=
          [⟨"q1", .update, "assets", "A", "p1", "t1", 0⟩,
           ⟨"q2", .update, "assets", "A", "p2", "t2", 0⟩] }
      ⟨some (.good [⟨"q1", .update, "assets", "A", "p1", "t1", 0⟩,
                    ⟨"q2", .update, "assets", "A", "p2", "t2", 0⟩]), none⟩).state.offlineQueue
      = [] ∧
    (processOfflineQueue
      { initialAssetsState with offlineQueue :=
          [⟨"q1", .update, "assets", "A", "p1", "t1", 0⟩,
           ⟨"q2", .update, "assets", "A", "p2", "t2", 0⟩] }
      ⟨some (.good [⟨"q1", .update, "assets", "A", "p1", "t1", 0⟩,
                    ⟨"q2", .update, "assets", "A", "p2", "t2", 0⟩]), none⟩).store.offline_queue
      = some (.good []) := by
  decide

/-- C2 counterexample: the claim says every read of `serviceStatus`
(including the due-soon list query) equals `statusOf(nextServiceDue, today)`
at read time.  An asset created on 2025-10-11 with a 31-day frequency stores
`current`; read two days later the pure function gives `due-soon` (delta 29),
yet `getAssetsDueSoon` — which filters on the stored field — misses it. -/
theorem serviceStatus_stale_counterexample :
    (createAsset ⟨some "2025-10-11", some "31"⟩ ⟨2025, 10, 11⟩ "a1").serviceStatus
      = some .current ∧
    getServiceStatus
      (createAsset ⟨some "2025-10-11", some "31"⟩ ⟨2025, 10, 11⟩ "a1").nextServiceDue
      ⟨2025, 10, 13⟩ = .dueSoon ∧
    getAssetsDueSoon [createAsset ⟨some "2025-10-11", some "31"⟩ ⟨2025, 10, 11⟩ "a1"] = [] := by
  decide

/-- C2 (amended): `serviceStatus` is computed by `getServiceStatus` from
`nextServiceDue` and the current date at write time and stored on the
document; reads — the `serviceStatus` query filter and `getAssetsDueSoon` —
return the stored field, which is not recomputed at read time. -/
theorem serviceStatus_write_time_semantics :
    (∀ (formValues : AssetFormValues) (today : CalDate) (assetId : String),
      (createAsset formValues today assetId).serviceStatus
        = some (getServiceStatus (createAsset formValues today assetId).nextServiceDue today)) ∧
    (∀ (all : List Asset) (f : ServiceStatus) (a : Asset),
      a ∈ getAssets all (some f) ↔ a ∈ all ∧ a.serviceStatus = some f) ∧
    (∀ (all : List Asset) (a : Asset),
      a ∈ getAssetsDueSoon all ↔
        a ∈ all ∧ (a.serviceStatus = some .dueSoon ∨ a.serviceStatus = some .overdue)) := by
  refine ⟨fun _ _ _ => rfl, ?_, ?_⟩
  · intro all f a
    simp [getAssets, List.mem_filter]
  · intro all a
    simp [getAssetsDueSoon, getAssets, List.mem_filter]

/-- C3: with a parseable `nextServiceDue` and `delta` the whole-day
difference to `today`, `getServiceStatus` returns `overdue` iff `delta < 0`,
`due-soon` iff `0 ≤ delta ≤ 30` (both boundaries included), `current` iff
`delta > 30`; an absent date gives `current`. -/
theorem getServiceStatus_threshold_spec :
    (∀ today : CalDate, getServiceStatus none today = .current) ∧
    (∀ (s : String) (due today : CalDate), parseISODay s = some due →
      ((getServiceStatus (some s) today = .overdue ↔
          (toDayNumber due : Int) - toDayNumber today < 0) ∧
       (getServiceStatus (some s) today = .dueSoon ↔
          0 ≤ (toDayNumber due : Int) - toDayNumber today ∧
          (toDayNumber due : Int) - toDayNumber today ≤ 30) ∧
       (getServiceStatus (some s) today = .current ↔
          30 < (toDayNumber due : Int) - toDayNumber today))) := by
  refine ⟨fun _ => rfl, ?_⟩
  intro s due today hparse
  have hne := (parseISODay_inv hparse).2.2
  have hnotempty : s.data.isEmpty = false := by
    cases hd : s.data with
    | nil => exact absurd hd hne
    | cons _ _ => rfl
  unfold getServiceStatus calculateDaysUntilService
  simp only [hnotempty, hparse, Bool.false_eq_true, if_false]
  set delta := (toDayNumber due : Int) - toDayNumber today with hdelta
  by_cases h1 : delta < 0
  · refine ⟨?_, ?_, ?_⟩ <;> simp [h1] <;> omega
  · by_cases h2 : delta ≤ 30
    · refine ⟨?_, ?_, ?_⟩ <;> simp [h1, h2] <;> omega
    · refine ⟨?_, ?_, ?_⟩ <;> simp [h1, h2] <;> omega

/-- Witness for C3 at the inclusive boundary `delta = 30`. -/
theorem getServiceStatus_threshold_witness :
    getServiceStatus (some "2025-11-10") ⟨2025, 10, 11⟩ = .dueSoon :=
  ((getServiceStatus_threshold_spec.2 "2025-11-10" ⟨2025, 11, 10⟩ ⟨2025, 10, 11⟩
    (by decide)).2.1).mpr (by decide)

/-- C10: `getServiceStatus` is total, always returns one of the three
statuses, and an unparseable `nextServiceDue` (e.g. `"garbage"`) yields
`current`, the same as an absent input. -/
theorem getServiceStatus_total_spec :
    (∀ (s : String) (today : CalDate), parseISODay s = none →
      getServiceStatus (some s) today = .current) ∧
    (∀ today : CalDate, getServiceStatus none today = .current) ∧
    (∀ (x : Option String) (today : CalDate),
      getServiceStatus x today = .current ∨ getServiceStatus x today = .dueSoon ∨
      getServiceStatus x today = .overdue) ∧
    (∀ today : CalDate, getServiceStatus (some "garbage") today = .current) := by
  have h1 : ∀ (s : String) (today : CalDate), parseISODay s = none →
      getServiceStatus (some s) today = .current := by
    intro s today hparse
    unfold getServiceStatus calculateDaysUntilService
    by_cases he : s.data.isEmpty
    · simp [he]
    · simp [he, hparse]
  refine ⟨h1, fun _ => rfl, ?_, fun today => h1 "garbage" today (by decide)⟩
  intro x today
  cases hx : getServiceStatus x today with
  | current => exact Or.inl rfl
  | dueSoon => exact Or.inr (Or.inl rfl)
  | overdue => exact Or.inr (Or.inr rfl)

/-- Witness for C10 on the concrete unparseable input `"garbage"`. -/
theorem getServiceStatus_total_witness :
    getServiceStatus (some "garbage") ⟨2025, 10, 11⟩ = .current :=
  getServiceStatus_total_spec.1 "garbage" ⟨2025, 10, 11⟩ (by decide)

/-- C4: `parseServiceFrequency` maps a bare decimal numeral to that number
of days, `"<N>-monthly"` to `N * 30`, `"<N>-yearly"` to `N * 365` with `N`
defaulting to 1 when unparseable (`"yearly"`, `"annual"`), and unparseable,
empty or absent input to `none` rather than an error; in particular
`"6-monthly" ↦ 180`, `"yearly" ↦ 365`, `"45" ↦ 45`, `"garbage" ↦ none`. -/
theorem parseServiceFrequency_spec :
    (∀ n : Nat, parseServiceFrequency (some (decimalString n)) = some (n : Int)) ∧
    (∀ n : Nat, parseServiceFrequency (some (decimalString n ++ "-monthly"))
        = some ((n : Int) * 30)) ∧
    (∀ n : Nat, 0 < n → parseServiceFrequency (some (decimalString n ++ "-yearly"))
        = some ((n : Int) * 365)) ∧
    parseServiceFrequency (some "yearly") = some 365 ∧
    parseServiceFrequency (some "annual") = some 365 ∧
    parseServiceFrequency (some "6-monthly") = some 180 ∧
    parseServiceFrequency (some "45") = some 45 ∧
    parseServiceFrequency (some "garbage") = none ∧
    parseServiceFrequency (some "") = none ∧
    parseServiceFrequency none = none :=
  ⟨parseServiceFrequency_decimal, parseServiceFrequency_monthly,
   parseServiceFrequency_yearly, by decide, by decide, by decide, by decide,
   by decide, by decide, rfl⟩

/-- Witness for C4: the `"<N>-yearly"` clause at `N = 6`. -/
theorem parseServiceFrequency_spec_witness :
    parseServiceFrequency (some (decimalString 6 ++ "-yearly")) = some ((6 : Int) * 365) :=
  parseServiceFrequency_spec.2.2.1 6 (by decide)

/-- C5: `calculateNextServiceDue` is absent when either input is absent and
otherwise returns exactly the last service date advanced by the frequency in
calendar days, measured by the day-number difference of the printed date
(stated for positive frequencies — the data model's valid range — and
results within the 4-digit-year calendar). -/
theorem calculateNextServiceDue_spec :
    (∀ f, calculateNextServiceDue none f = none) ∧
    (∀ l, calculateNextServiceDue l none = none) ∧
    (∀ (s : String) (dt : CalDate) (f : Nat),
      parseISODay s = some dt → 0 < f → toDayNumber dt + f ≤ 3652058 →
      ∃ (t : String) (dt' : CalDate),
        calculateNextServiceDue (some s) (some (f : Int)) = some t ∧
        parseISODay t = some dt' ∧
        toDayNumber dt' = toDayNumber dt + f) := by
  refine ⟨fun f => by cases f <;> rfl, fun l => by cases l <;> rfl, ?_⟩
  intro s dt f hparse hf hbound
  obtain ⟨hvalid, hy, hne⟩ := parseISODay_inv hparse
  have hnotempty : s.data.isEmpty = false := by
    cases hd : s.data with
    | nil => exact absurd hd hne
    | cons _ _ => rfl
  have hfz : ((f : Int) == 0) = false := by
    simp only [beq_eq_false_iff_ne, ne_eq, Int.natCast_eq_zero]
    omega
  have hadd : addDays dt (f : Int) = addDaysN dt f := by
    unfold addDays
    rw [if_pos (Int.natCast_nonneg f)]
    simp
  have hspec := addDaysN_spec f dt hvalid
  have hy' : (addDaysN dt f).year ≤ 9999 :=
    year_le_9999_of_dayNumber hspec.1 (by rw [hspec.2]; omega)
  have hrt := parseISODay_printISODay hspec.1 hy'
  refine ⟨printISODay (addDaysN dt f), addDaysN dt f, ?_, hrt, hspec.2⟩
  unfold calculateNextServiceDue
  simp [hnotempty, hfz, hparse, hadd]

/-- Witness for C5: adding a 31-day frequency to 2025-10-11. -/
theorem calculateNextServiceDue_witness :
    ∃ (t : String) (dt' : CalDate),
      calculateNextServiceDue (some "2025-10-11") (some ((31 : Nat) : Int)) = some t ∧
      parseISODay t = some dt' ∧
      toDayNumber dt' = toDayNumber ⟨2025, 10, 11⟩ + 31 :=
  calculateNextServiceDue_spec.2.2 "2025-10-11" ⟨2025, 10, 11⟩ 31 (by decide) (by decide)
    (by decide)

/-- C6: `addToOfflineQueue` appends an item carrying the generated id, the
current timestamp and `retryCount = 0`, persists the updated queue to the
Local Persistent Store before returning, and a restart that reloads the
queue from the store still contains the item; a generated id distinct from
all queued ids keeps the id list duplicate-free. -/
theorem addToOfflineQueue_spec :
    ∀ (ty : MutationKind) (collection documentId payload : String) (env : JsEnv)
      (st : AssetsHookState) (store : LocalStore),
      (addToOfflineQueue ty collection documentId payload env st store).1.offlineQueue
        = st.offlineQueue ++
          [⟨generateUniqueId env, ty, collection, documentId, payload, env.nowIso, 0⟩] ∧
      (addToOfflineQueue ty collection documentId payload env st store).2.offline_queue
        = some (.good (st.offlineQueue ++
          [⟨generateUniqueId env, ty, collection, documentId, payload, env.nowIso, 0⟩])) ∧
      (loadOfflineQueue initialAssetsState
          (addToOfflineQueue ty collection documentId payload env st store).2).offlineQueue
        = st.offlineQueue ++
          [⟨generateUniqueId env, ty, collection, documentId, payload, env.nowIso, 0⟩] ∧
      (⟨generateUniqueId env, ty, collection, documentId, payload, env.nowIso, 0⟩
          : OfflineQueueItem)
        ∈ (loadOfflineQueue initialAssetsState
            (addToOfflineQueue ty collection documentId payload env st store).2).offlineQueue ∧
      ((st.offlineQueue.map OfflineQueueItem.id).Nodup →
        (∀ q ∈ st.offlineQueue, q.id ≠ generateUniqueId env) →
        ((addToOfflineQueue ty collection documentId payload env st store).1.offlineQueue.map
            OfflineQueueItem.id).Nodup) := by
  intro ty collection documentId payload env st store
  refine ⟨rfl, rfl, rfl, List.mem_append_right _ (by simp), ?_⟩
  intro hnodup hfresh
  rw [show (addToOfflineQueue ty collection documentId payload env st store).1.offlineQueue
      = st.offlineQueue ++
        [⟨generateUniqueId env, ty, collection, documentId, payload, env.nowIso, 0⟩] from rfl]
  rw [List.map_append]
  refine List.Nodup.append hnodup (by simp) ?_
  intro x hx1 hx2
  obtain ⟨q, hq, rfl⟩ := List.mem_map.mp hx1
  simp at hx2
  exact hfresh q hq hx2

/-- Witness for C6 from the initial (empty) queue. -/
theorem addToOfflineQueue_witness :
    ((⟨generateUniqueId ⟨1730000000000, "k9f3p2q1r", "2025-10-11T09:00:00.000Z"⟩, .update,
        "assets", "A", "p1", "2025-10-11T09:00:00.000Z", 0⟩ : OfflineQueueItem)
      ∈ (loadOfflineQueue initialAssetsState
          (addToOfflineQueue .update "assets" "A" "p1"
            ⟨1730000000000, "k9f3p2q1r", "2025-10-11T09:00:00.000Z"⟩
            initialAssetsState ⟨none, none⟩).2).offlineQueue) ∧
    ((addToOfflineQueue .update "assets" "A" "p1"
        ⟨1730000000000, "k9f3p2q1r", "2025-10-11T09:00:00.000Z"⟩
        initialAssetsState ⟨none, none⟩).1.offlineQueue.map OfflineQueueItem.id).Nodup :=
  ⟨(addToOfflineQueue_spec .update "assets" "A" "p1"
      ⟨1730000000000, "k9f3p2q1r", "2025-10-11T09:00:00.000Z"⟩
      initialAssetsState ⟨none, none⟩).2.2.2.1,
   (addToOfflineQueue_spec .update "assets" "A" "p1"
      ⟨1730000000000, "k9f3p2q1r", "2025-10-11T09:00:00.000Z"⟩
      initialAssetsState ⟨none, none⟩).2.2.2.2 (by decide) (by decide)⟩

/-- C7: the claim says a permanently failing mutation is moved to a
dead-letter list exactly once and removed from the queue, and no mutation is
silently dropped.  The code has no dead-letter list and never classifies
failures: at the failing input — one queued mutation against a Remote Store
that would reject every write — the loop logs the item, issues no remote
operation, and persists an empty queue, silently dropping the mutation. -/
theorem processOfflineQueue_no_dead_letter :
    (processOfflineQueue
      { initialAssetsState with offlineQueue := [⟨"q1", .create, "assets", "A", "p", "t", 0⟩] }
      ⟨some (.good [⟨"q1", .create, "assets", "A", "p", "t", 0⟩]), none⟩).logged
      = [⟨"q1", .create, "assets", "A", "p", "t", 0⟩] ∧
    (processOfflineQueue
      { initialAssetsState with offlineQueue := [⟨"q1", .create, "assets", "A", "p", "t", 0⟩] }
      ⟨some (.good [⟨"q1", .create, "assets", "A", "p", "t", 0⟩]), none⟩).remoteOps = [] ∧
    (processOfflineQueue
      { initialAssetsState with offlineQueue := [⟨"q1", .create, "assets", "A", "p", "t", 0⟩] }
      ⟨some (.good [⟨"q1", .create, "assets", "A", "p", "t", 0⟩]), none⟩).state.offlineQueue
      = [] ∧
    (processOfflineQueue
      { initialAssetsState with offlineQueue := [⟨"q1", .create, "assets", "A", "p", "t", 0⟩] }
      ⟨some (.good [⟨"q1", .create, "assets", "A", "p", "t", 0⟩]), none⟩).store.offline_queue
      = some (.good []) := by
  decide

/-- C8: the claim says a `flush` issued while one is in flight coalesces
with it via an in-flight flag.  The code consults no such flag: invoked
while `syncing` is already `true` it still runs a full pass over the queue,
and a second overlapping invocation that captured the same queue state
processes the same item again. -/
theorem processOfflineQueue_no_inflight_guard :
    (processOfflineQueue
      { assets := [], loading := false, syncing := true,
        offlineQueue := [⟨"q1", .update, "assets", "A", "p1", "t1", 0⟩] }
      ⟨some (.good [⟨"q1", .update, "assets", "A", "p1", "t1", 0⟩]), none⟩).logged
      = [⟨"q1", .update, "assets", "A", "p1", "t1", 0⟩] ∧
    (processOfflineQueue
      { (processOfflineQueue
          { assets := [], loading := false, syncing := true,
            offlineQueue := [⟨"q1", .update, "assets", "A", "p1", "t1", 0⟩] }
          ⟨some (.good [⟨"q1", .update, "assets", "A", "p1", "t1", 0⟩]), none⟩).state with
        offlineQueue := [⟨"q1", .update, "assets", "A", "p1", "t1", 0⟩] }
      (processOfflineQueue
        { assets := [], loading := false, syncing := true,
          offlineQueue := [⟨"q1", .update, "assets", "A", "p1", "t1", 0⟩] }
        ⟨some (.good [⟨"q1", .update, "assets", "A", "p1", "t1", 0⟩]), none⟩).store).logged
      = [⟨"q1", .update, "assets", "A", "p1", "t1", 0⟩] := by
  decide

/-- C9: `loadCachedAssets` leaves the hook state untouched when the cached
value is absent or fails to deserialize — so from the initial state the
caller observes the empty asset list — and never propagates an error. -/
theorem loadCachedAssets_spec :
    ∀ (st : AssetsHookState) (store : LocalStore),
      (store.cached_assets = none ∨ ∃ c, store.cached_assets = some (.corrupt c)) →
      loadCachedAssets st store = st ∧
      (loadCachedAssets initialAssetsState store).assets = [] := by
  intro st store h
  have key : ∀ (st' : AssetsHookState), loadCachedAssets st' store = st' := by
    intro st'
    unfold loadCachedAssets
    rcases h with h | ⟨c, h⟩
    · rw [h]
    · rw [h]
      rfl
  exact ⟨key st, by rw [key initialAssetsState]; rfl⟩

/-- Witness for C9 on a concrete corrupt cache value. -/
theorem loadCachedAssets_witness :
    loadCachedAssets initialAssetsState ⟨none, some (.corrupt "not json")⟩
      = initialAssetsState ∧
    (loadCachedAssets initialAssetsState ⟨none, some (.corrupt "not json")⟩).assets = [] :=
  loadCachedAssets_spec initialAssetsState ⟨none, some (.corrupt "not json")⟩
    (Or.inr ⟨"not json", rfl⟩)

end AssetTracker
